import Mathlib

/-!
Shallow embedding of the diff utilities of `ai-code-review`
(`splitDiffByFiles`, `extractFileDiff`, `parseDiff`, `summarizeDiff`),
translated from the TypeScript source.  Lines are modelled as `List Char`
(a JavaScript string), and the two regular expressions of the source
(`/diff --git a\/(.*?) b\/(.*?)\n/g` and
`/@@ -(\d+),?(\d*) \+(\d+),?(\d*) @@/`) are implemented as deterministic
matchers with the same semantics (leftmost match, lazy respectively greedy
capture).
-/

namespace DiffUtils

/-- JavaScript `parseInt` on a string of decimal digits. -/
def parseNatDigits (l : List Char) : Nat :=
  l.foldl (fun a c => a * 10 + (c.toNat - 48)) 0

/-- JavaScript `str.split('\n')`: the list of newline-separated lines,
keeping empty fragments (so `""` yields `[""]`). -/
def splitLines : List Char → List (List Char)
  | [] => [[]]
  | c :: t =>
    if c = '\n' then [] :: splitLines t
    else
      match splitLines t with
      | [] => [[c]]
      | l :: ls => (c :: l) :: ls

/-- Index of the first occurrence of `pat` inside `s`, if any
(JavaScript `String.indexOf` / the search step of a regex literal). -/
def findSub (pat : List Char) : List Char → Option Nat
  | [] => if pat.isPrefixOf [] then some 0 else none
  | c :: t =>
    if pat.isPrefixOf (c :: t) then some 0
    else (findSub pat t).map (· + 1)

/-! ### The file-header regex `/diff --git a\/(.*?) b\/(.*?)\n/g` -/

/-- Attempt to match `diff --git a\/(.*?) b\/(.*?)\n` at the very start of
`s`.  On success returns the first capture group (the `a/` path) and the
length of the whole match.  Both groups are lazy and `.` does not match a
newline, so the first group runs to the first ` b/` (provided no newline
precedes it) and the second group runs to the first newline after that. -/
def matchFileHeaderAt (s : List Char) : Option (List Char × Nat) :=
  let pre := "diff --git a/".data
  if pre.isPrefixOf s then
    let rest := s.drop 13
    match findSub " b/".data rest with
    | none => none
    | some j =>
      let g1 := rest.take j
      if g1.contains '\n' then none
      else
        let rest2 := rest.drop (j + 3)
        match findSub ['\n'] rest2 with
        | none => none
        | some m => some (g1, 13 + j + 3 + m + 1)
  else none

/-- All matches of the global file-header regex: repeated `exec`, resuming
each search at the end of the previous match (`lastIndex`).  Returns
`(match index, captured a-path, match length)` triples.  `fuel` bounds the
recursion; `scanHeaders` supplies enough fuel for the whole input. -/
def scanAux : Nat → List Char → Nat → List (Nat × List Char × Nat)
  | 0, _, _ => []
  | _ + 1, [], _ => []
  | fuel + 1, s@(_ :: t), i =>
    match matchFileHeaderAt s with
    | some (g1, len) => (i, g1, len) :: scanAux fuel (s.drop len) (i + len)
    | none => scanAux fuel t (i + 1)

/-- All file-header matches of the input, with absolute indices. -/
def scanHeaders (s : List Char) : List (Nat × List Char × Nat) :=
  scanAux s.length s 0

/-- JavaScript object assignment `r[k] = v` on a string-keyed record:
an existing key keeps its position and gets the new value, a new key is
appended. -/
def recSet (r : List (String × String)) (k v : String) : List (String × String) :=
  if r.any (fun p => p.1 = k) then
    r.map (fun p => if p.1 = k then (k, v) else p)
  else r ++ [(k, v)]

/-- The extraction loop of `splitDiffByFiles`: for each header, the file's
segment runs from its match index to the next header's index (or to the
end of the input for the last header). -/
def splitLoop (s : List Char) : List (Nat × List Char × Nat) →
    List (String × String) → List (String × String)
  | [], acc => acc
  | (idx, name, _) :: rest, acc =>
    let endPos : Nat :=
      match rest with
      | [] => s.length
      | (idx2, _, _) :: _ => idx2
    let content := (s.drop idx).take (endPos - idx)
    splitLoop s rest (recSet acc (String.mk name) (String.mk content))

/-- The function `splitDiffByFiles`: split a multi-file diff into a
mapping from the captured `a/` path to the raw substring of the input
covering that file. -/
def splitDiffByFiles (diffStr : String) : List (String × String) :=
  splitLoop diffStr.data (scanHeaders diffStr.data) []

/-- The function `extractFileDiff`: the segment recorded for `fileName`,
if any. -/
def extractFileDiff (diffStr : String) (fileName : String) : Option String :=
  ((splitDiffByFiles diffStr).find? (fun p => p.1 = fileName)).map Prod.snd

/-- Specification helper: the index of the first header in a match list,
or the input length when the list is empty. -/
def headIdx (s : List Char) : List (Nat × List Char × Nat) → Nat
  | [] => s.length
  | (i, _, _) :: _ => i

/-- Specification helper: the index of the first file-header match, or the
input length when there is none (so that the text from this index onward
is exactly what the segments of `splitDiffByFiles` cover). -/
def firstHeaderIndex (s : List Char) : Nat :=
  headIdx s (scanHeaders s)

/-- Specification helper: the `(key, segment)` pairs `splitLoop` inserts,
in order, before any collapsing of duplicate keys. -/
def segPairs (s : List Char) : List (Nat × List Char × Nat) → List (String × String)
  | [] => []
  | (idx, name, _) :: rest =>
    let endPos : Nat :=
      match rest with
      | [] => s.length
      | (idx2, _, _) :: _ => idx2
    (String.mk name, String.mk ((s.drop idx).take (endPos - idx))) :: segPairs s rest

/-! ### The structured parser `parseDiff` -/

inductive LineType where
  | added
  | removed
  | context
  deriving DecidableEq, Repr

structure DiffLine where
  type : LineType
  content : String
  oldLineNumber : Option Nat := none
  newLineNumber : Option Nat := none
  deriving DecidableEq, Repr

structure DiffChunk where
  oldStart : Nat
  oldLines : Nat
  newStart : Nat
  newLines : Nat
  lines : List DiffLine
  deriving DecidableEq, Repr

structure FileDiff where
  oldFile : String
  newFile : String
  isDeleted : Bool
  isNew : Bool
  chunks : List DiffChunk
  deriving DecidableEq, Repr

/-! The hunk-header regex `/@@ -(\d+),?(\d*) \+(\d+),?(\d*) @@/`. -/

/-- Attempt to match the hunk-header regex at the very start of `l`; on
success return the four capture groups.  `\d+` and `\d*` are greedy, and
greedy digit runs followed by `,?`, more digits and a literal space never
profit from backtracking, so a deterministic longest-digit-run scan has
exactly the regex's semantics. -/
def matchHunkCapsAt (l : List Char) :
    Option (List Char × List Char × List Char × List Char) :=
  if "@@ -".data.isPrefixOf l then
    let r0 := l.drop 4
    let g1 := r0.takeWhile Char.isDigit
    if g1 = [] then none
    else
      let r1 := r0.drop g1.length
      let r1' := if r1.head? = some ',' then r1.drop 1 else r1
      let g2 := r1'.takeWhile Char.isDigit
      let r2 := r1'.drop g2.length
      if " +".data.isPrefixOf r2 then
        let r3 := r2.drop 2
        let g3 := r3.takeWhile Char.isDigit
        if g3 = [] then none
        else
          let r4 := r3.drop g3.length
          let r4' := if r4.head? = some ',' then r4.drop 1 else r4
          let g4 := r4'.takeWhile Char.isDigit
          let r5 := r4'.drop g4.length
          if " @@".data.isPrefixOf r5 then some (g1, g2, g3, g4) else none
      else none
  else none

/-- Leftmost match of the hunk-header regex anywhere in the line
(JavaScript `line.match(...)` is unanchored). -/
def searchHunkCaps : List Char → Option (List Char × List Char × List Char × List Char)
  | [] => none
  | s@(_ :: t) =>
    match matchHunkCapsAt s with
    | some caps => some caps
    | none => searchHunkCaps t

/-- The chunk built from a line's hunk-header match: parsed start numbers;
a missing (empty) count capture defaults to `1` via JavaScript falsiness of
the empty string in `match[2] ? parseInt(match[2]) : 1`. -/
def parseHunkHeader (line : List Char) : Option DiffChunk :=
  (searchHunkCaps line).map fun (g1, g2, g3, g4) =>
    { oldStart := parseNatDigits g1
      oldLines := if g2 = [] then 1 else parseNatDigits g2
      newStart := parseNatDigits g3
      newLines := if g4 = [] then 1 else parseNatDigits g4
      lines := [] }

/-- Where the JavaScript variable `currentChunk` points: the last chunk of
the file under construction (`cur`), or the last chunk of the already
pushed file at index `i` of the output (`prev i`) — the source never
resets `currentChunk` on a new `diff --git` header, so the open chunk can
belong to an earlier file. -/
inductive ChunkLoc where
  | cur : ChunkLoc
  | prev : Nat → ChunkLoc
  deriving DecidableEq, Repr

/-- The mutable state of `parseDiff`'s loop: `diffs`, `currentDiff` and
(the location of) `currentChunk`. -/
structure ParseState where
  diffs : List FileDiff
  currentDiff : Option FileDiff
  cloc : Option ChunkLoc
  deriving DecidableEq, Repr

/-- Replace the last element of a chunk list by `f` of it. -/
def updateLast (f : DiffChunk → DiffChunk) : List DiffChunk → List DiffChunk
  | [] => []
  | [c] => [f c]
  | c :: t => c :: updateLast f t

/-- Apply `f` to the `n`-th element of a file list. -/
def updateAt (n : Nat) (f : FileDiff → FileDiff) : List FileDiff → List FileDiff
  | [] => []
  | d :: t =>
    match n with
    | 0 => f d :: t
    | m + 1 => d :: updateAt m f t

/-- Mutate the chunk object `currentChunk` points at (it is always the
last chunk of its owning file). -/
def modifyOpenChunk (st : ParseState) (f : DiffChunk → DiffChunk) : ParseState :=
  match st.cloc with
  | none => st
  | some .cur =>
    match st.currentDiff with
    | none => st
    | some d => { st with currentDiff := some { d with chunks := updateLast f d.chunks } }
  | some (.prev i) =>
    { st with diffs := updateAt i (fun d => { d with chunks := updateLast f d.chunks }) st.diffs }

/-- The in-hunk content branch of the loop body: classify a line by its
first character, strip the marker, record and post-increment the running
counters stored in the chunk's `oldStart`/`newStart` fields.  Any other
line (including the `\ No newline at end of file` marker) leaves the chunk
unchanged. -/
def chunkStep (line : List Char) (c : DiffChunk) : DiffChunk :=
  if "+".data.isPrefixOf line then
    { c with
      lines := c.lines ++
        [{ type := .added, content := String.mk (line.drop 1),
           newLineNumber := some c.newStart }]
      newStart := c.newStart + 1 }
  else if "-".data.isPrefixOf line then
    { c with
      lines := c.lines ++
        [{ type := .removed, content := String.mk (line.drop 1),
           oldLineNumber := some c.oldStart }]
      oldStart := c.oldStart + 1 }
  else if " ".data.isPrefixOf line then
    { c with
      lines := c.lines ++
        [{ type := .context, content := String.mk (line.drop 1),
           oldLineNumber := some c.oldStart,
           newLineNumber := some c.newStart }]
      oldStart := c.oldStart + 1
      newStart := c.newStart + 1 }
  else c

/-- One iteration of `parseDiff`'s `for` loop on one line. -/
def stepLine (st : ParseState) (line : List Char) : ParseState :=
  if "diff --git ".data.isPrefixOf line then
    { diffs :=
        match st.currentDiff with
        | some d => st.diffs ++ [d]
        | none => st.diffs
      currentDiff := some ⟨"", "", false, false, []⟩
      cloc :=
        match st.cloc, st.currentDiff with
        | some .cur, some _ => some (.prev st.diffs.length)
        | l, _ => l }
  else
    match st.currentDiff with
    | none => st
    | some d =>
      if "--- a/".data.isPrefixOf line then
        { st with currentDiff := some { d with oldFile := String.mk (line.drop 6) } }
      else if "+++ b/".data.isPrefixOf line then
        { st with currentDiff := some { d with newFile := String.mk (line.drop 6) } }
      else if "+++ /dev/null".data.isPrefixOf line then
        { st with currentDiff := some { d with isDeleted := true } }
      else if "--- /dev/null".data.isPrefixOf line then
        { st with currentDiff := some { d with isNew := true } }
      else if "index ".data.isPrefixOf line ∨ "new file mode ".data.isPrefixOf line ∨
          "deleted file mode ".data.isPrefixOf line then
        st
      else if "@@ ".data.isPrefixOf line then
        match parseHunkHeader line with
        | some ch =>
          { st with currentDiff := some { d with chunks := d.chunks ++ [ch] },
                    cloc := some .cur }
        | none => st
      else
        modifyOpenChunk st (chunkStep line)

/-- After the loop: push the file still under construction, if any. -/
def finalizeState (st : ParseState) : List FileDiff :=
  match st.currentDiff with
  | some d => st.diffs ++ [d]
  | none => st.diffs

/-- The function `parseDiff`: run the line loop over
`diffStr.split('\n')`. -/
def parseDiff (diffStr : String) : List FileDiff :=
  finalizeState ((splitLines diffStr.data).foldl stepLine ⟨[], none, none⟩)

/-- Specification helper: a plain in-hunk content line — one that begins
with `+`, `-` or a space but is not one of the file-metadata lines the
loop tests first (`+++ b/`, `+++ /dev/null`, `--- a/`, `--- /dev/null`).
No other earlier branch can capture such a line, since `diff --git `,
`index `, `new file mode `, `deleted file mode ` and `@@ ` all begin with
a character other than `+`, `-` or a space. -/
def isPlainContentLine (line : List Char) : Bool :=
  ("+".data.isPrefixOf line && !("+++ b/".data.isPrefixOf line) &&
    !("+++ /dev/null".data.isPrefixOf line)) ||
  ("-".data.isPrefixOf line && !("--- a/".data.isPrefixOf line) &&
    !("--- /dev/null".data.isPrefixOf line)) ||
  (" ".data.isPrefixOf line)

/-! ### Checked variants: `parseInt` with NaN modelled as an error

JavaScript `parseInt` never throws but yields the poison value `NaN` on a
string that is empty or not numeric.  The checked variants below return an
error exactly where `parseDiff` would compute `NaN`; proving they always
succeed shows `parseDiff` is total and never produces an error value. -/

/-- Checked `parseInt`: errors where JavaScript would yield `NaN`. -/
def parseIntChecked (l : List Char) : Except String Nat :=
  if l ≠ [] ∧ l.all Char.isDigit then .ok (parseNatDigits l) else .error "NaN"

/-- Checked hunk-header handler mirroring `parseHunkHeader`. -/
def parseHunkHeaderChecked (line : List Char) : Except String (Option DiffChunk) :=
  match searchHunkCaps line with
  | none => .ok none
  | some (g1, g2, g3, g4) => do
    let a ← parseIntChecked g1
    let b ← if g2 = [] then pure 1 else parseIntChecked g2
    let c ← parseIntChecked g3
    let d ← if g4 = [] then pure 1 else parseIntChecked g4
    pure (some { oldStart := a, oldLines := b, newStart := c, newLines := d, lines := [] })

/-- Checked loop body mirroring `stepLine`. -/
def stepLineChecked (st : ParseState) (line : List Char) : Except String ParseState :=
  if "diff --git ".data.isPrefixOf line then
    .ok { diffs :=
            match st.currentDiff with
            | some d => st.diffs ++ [d]
            | none => st.diffs
          currentDiff := some ⟨"", "", false, false, []⟩
          cloc :=
            match st.cloc, st.currentDiff with
            | some .cur, some _ => some (.prev st.diffs.length)
            | l, _ => l }
  else
    match st.currentDiff with
    | none => .ok st
    | some d =>
      if "--- a/".data.isPrefixOf line then
        .ok { st with currentDiff := some { d with oldFile := String.mk (line.drop 6) } }
      else if "+++ b/".data.isPrefixOf line then
        .ok { st with currentDiff := some { d with newFile := String.mk (line.drop 6) } }
      else if "+++ /dev/null".data.isPrefixOf line then
        .ok { st with currentDiff := some { d with isDeleted := true } }
      else if "--- /dev/null".data.isPrefixOf line then
        .ok { st with currentDiff := some { d with isNew := true } }
      else if "index ".data.isPrefixOf line ∨ "new file mode ".data.isPrefixOf line ∨
          "deleted file mode ".data.isPrefixOf line then
        .ok st
      else if "@@ ".data.isPrefixOf line then
        match parseHunkHeaderChecked line with
        | .error e => .error e
        | .ok (some ch) =>
          .ok { st with currentDiff := some { d with chunks := d.chunks ++ [ch] },
                        cloc := some .cur }
        | .ok none => .ok st
      else
        .ok (modifyOpenChunk st (chunkStep line))

/-- Checked `parseDiff`. -/
def parseDiffChecked (diffStr : String) : Except String (List FileDiff) := do
  let st ← (splitLines diffStr.data).foldlM stepLineChecked ⟨[], none, none⟩
  pure (finalizeState st)

/-! ### The summarizer `summarizeDiff` -/

structure FileChange where
  file : String
  insertions : Nat
  deletions : Nat
  isDeleted : Bool
  isNew : Bool
  deriving DecidableEq, Repr

structure DiffSummary where
  filesChanged : Nat
  insertions : Nat
  deletions : Nat
  fileChanges : List FileChange
  deriving DecidableEq, Repr

/-- The per-file counting loop of `summarizeDiff`: number of added and of
removed lines over all chunks of one file. -/
def fileCounts (d : FileDiff) : Nat × Nat :=
  d.chunks.foldl
    (fun a ch =>
      ch.lines.foldl
        (fun b l =>
          let b1 := if l.type = .added then (b.1 + 1, b.2) else b
          if l.type = .removed then (b1.1, b1.2 + 1) else b1)
        a)
    (0, 0)

/-- One iteration of `summarizeDiff`'s `for` loop: add the file's counts
to the running totals and push its per-file record. -/
def sumStep (a : Nat × Nat × List FileChange) (d : FileDiff) : Nat × Nat × List FileChange :=
  let fc := fileCounts d
  (a.1 + fc.1, a.2.1 + fc.2,
    a.2.2 ++
      [{ file := if d.isDeleted then d.oldFile else d.newFile
         insertions := fc.1
         deletions := fc.2
         isDeleted := d.isDeleted
         isNew := d.isNew }])

/-- The function `summarizeDiff`: parse, then accumulate totals and
per-file records. -/
def summarizeDiff (diffStr : String) : DiffSummary :=
  let diffs := parseDiff diffStr
  let acc := diffs.foldl sumStep (0, 0, [])
  { filesChanged := diffs.length
    insertions := acc.1
    deletions := acc.2.1
    fileChanges := acc.2.2 }

/-! ## Theorems -/

theorem sumStep_foldl (l : List FileDiff) (a : Nat × Nat × List FileChange) :
    (l.foldl sumStep a).1 = a.1 + (l.map fun d => (fileCounts d).1).sum ∧
    (l.foldl sumStep a).2.1 = a.2.1 + (l.map fun d => (fileCounts d).2).sum ∧
    (l.foldl sumStep a).2.2 = a.2.2 ++ (l.map fun d =>
      ({ file := if d.isDeleted then d.oldFile else d.newFile
         insertions := (fileCounts d).1
         deletions := (fileCounts d).2
         isDeleted := d.isDeleted
         isNew := d.isNew } : FileChange)) := by
  induction l generalizing a with
  | nil => simp
  | cons d t ih =>
    obtain ⟨h1, h2, h3⟩ := ih (sumStep a d)
    refine ⟨?_, ?_, ?_⟩
    · simp only [List.foldl_cons, h1, List.map_cons, List.sum_cons]
      simp only [sumStep]
      omega
    · simp only [List.foldl_cons, h2, List.map_cons, List.sum_cons]
      simp only [sumStep]
      omega
    · simp only [List.foldl_cons, h3, List.map_cons]
      simp only [sumStep]
      simp [List.append_assoc]

/-- C9: on the empty input, the segmenter returns an empty mapping, the
parser an empty sequence, and the summarizer the all-zero summary. -/
theorem c9_empty_input :
    splitDiffByFiles "" = [] ∧ parseDiff "" = [] ∧
    summarizeDiff "" =
      { filesChanged := 0, insertions := 0, deletions := 0, fileChanges := [] } := by
  decide

/-- C5: the summary's `insertions` is the sum of the per-file insertions
over `fileChanges`, `deletions` likewise, and `filesChanged` is the length
of `fileChanges`. -/
theorem c5_summary_consistency (s : String) :
    (summarizeDiff s).insertions =
      ((summarizeDiff s).fileChanges.map (fun fc => fc.insertions)).sum ∧
    (summarizeDiff s).deletions =
      ((summarizeDiff s).fileChanges.map (fun fc => fc.deletions)).sum ∧
    (summarizeDiff s).filesChanged = (summarizeDiff s).fileChanges.length := by
  obtain ⟨h1, h2, h3⟩ := sumStep_foldl (parseDiff s) (0, 0, [])
  unfold summarizeDiff
  simp only [h1, h2, h3]
  simp [List.map_map, Function.comp_def]

/-- C7: the per-file `file` name reported by `summarizeDiff` is the file's
`oldFile` when the file is marked deleted and its `newFile` otherwise. -/
theorem c7_summary_file_name (s : String) :
    (summarizeDiff s).fileChanges.map (fun fc => fc.file) =
      (parseDiff s).map (fun d => if d.isDeleted then d.oldFile else d.newFile) := by
  obtain ⟨-, -, h3⟩ := sumStep_foldl (parseDiff s) (0, 0, [])
  unfold summarizeDiff
  simp only [h3]
  simp [List.map_map, Function.comp_def]

/-- C1 fails on the code: on the input below, which contains two lines
matching the file-header pattern, `splitDiffByFiles` returns a single
entry (the two headers capture the same `a/` path, so the second
overwrites the first), and concatenating the returned substrings does not
reproduce the input (the text before the first header is dropped). -/
theorem c1_counterexample :
    splitDiffByFiles "x\ndiff --git a/f b/f\ndiff --git a/f b/f\n+z\n" =
      [("f", "diff --git a/f b/f\n+z\n")] ∧
    ¬((splitDiffByFiles "x\ndiff --git a/f b/f\ndiff --git a/f b/f\n+z\n").length = 2 ∧
      ((splitDiffByFiles "x\ndiff --git a/f b/f\ndiff --git a/f b/f\n+z\n").map
          Prod.snd).foldr (fun a b => a ++ b) "" =
        "x\ndiff --git a/f b/f\ndiff --git a/f b/f\n+z\n") := by
  decide

/-- C2 fails on the code: the hunk header `@@ -1 +1 @@` parses to starts
`(1, 1)`, but after consuming one added content line the returned chunk
carries `oldStart = 1, newStart = 2` — the source post-increments the
chunk's own `newStart`/`oldStart` fields as running counters while the
hunk is open, so the closed hunk does not retain the header's values. -/
theorem c2_counterexample :
    parseHunkHeader "@@ -1 +1 @@".data =
      some { oldStart := 1, oldLines := 1, newStart := 1, newLines := 1, lines := [] } ∧
    (parseDiff "diff --git a/f b/f\n@@ -1 +1 @@\n+x\n").map
        (fun d => d.chunks.map fun c => (c.oldStart, c.newStart)) = [[(1, 2)]] := by
  decide

theorem chunkStep_starts (line : List Char) (c : DiffChunk) :
    (chunkStep line c).oldStart =
      c.oldStart + (if "-".data.isPrefixOf line || " ".data.isPrefixOf line then 1 else 0) ∧
    (chunkStep line c).newStart =
      c.newStart + (if "+".data.isPrefixOf line || " ".data.isPrefixOf line then 1 else 0) := by
  cases line with
  | nil => simp [chunkStep, List.isPrefixOf]
  | cons ch t =>
    by_cases h1 : ch = '+'
    · subst h1; simp [chunkStep, List.isPrefixOf]
    · by_cases h2 : ch = '-'
      · subst h2; simp [chunkStep, List.isPrefixOf]
      · by_cases h3 : ch = ' '
        · subst h3; simp [chunkStep, List.isPrefixOf]
        · simp [chunkStep, List.isPrefixOf, h1, h2, h3, Ne.symm h1, Ne.symm h2, Ne.symm h3]

/-- C2 amended: the open chunk's `oldStart`/`newStart` fields are running
counters — consuming a sequence of content lines advances `oldStart` by
one per removed-or-context line and `newStart` by one per
added-or-context line, starting from the values seeded from the hunk
header; the fields are only changed by the in-hunk classification step
(so they are frozen once the hunk closes), but they do not retain the
header's start values. -/
theorem c2_amended_running_counters (c : DiffChunk) (ls : List (List Char)) :
    (ls.foldl (fun ch l => chunkStep l ch) c).oldStart =
      c.oldStart + ls.countP (fun l => "-".data.isPrefixOf l || " ".data.isPrefixOf l) ∧
    (ls.foldl (fun ch l => chunkStep l ch) c).newStart =
      c.newStart + ls.countP (fun l => "+".data.isPrefixOf l || " ".data.isPrefixOf l) := by
  induction ls generalizing c with
  | nil => simp
  | cons l t ih =>
    obtain ⟨i1, i2⟩ := ih (chunkStep l c)
    obtain ⟨s1, s2⟩ := chunkStep_starts l c
    simp only [List.foldl_cons, List.countP_cons, i1, i2, s1, s2]
    constructor <;> split_ifs <;> simp_all <;> omega

/-- C3 fails on the code: after the malformed hunk header `@@ bad`, the
content line `+y` is not ignored — it is appended to the still-open
previous hunk, because the source never clears `currentChunk` when a
malformed header is skipped. -/
theorem c3_counterexample :
    (parseDiff "diff --git a/f b/f\n@@ -1 +1 @@\n x\n@@ bad\n+y\n").map
        (fun d => d.chunks.map fun c => c.lines.map fun l => (l.type, l.content)) =
      [[[(.context, "x"), (.added, "y")]]] := by
  decide

theorem splitLines_append (a b : List Char) (h : '\n' ∉ a) :
    splitLines (a ++ '\n' :: b) = a :: splitLines b := by
  induction a with
  | nil => simp [splitLines]
  | cons c t ih =>
    simp only [List.mem_cons, not_or] at h
    have hc : ¬ (c = '\n') := fun hh => h.1 hh.symm
    simp [List.cons_append, splitLines, hc, ih h.2]

theorem stepLine_content (st : ParseState) (d : FileDiff) (line : List Char)
    (hd : st.currentDiff = some d) (h : isPlainContentLine line = true) :
    stepLine st line = modifyOpenChunk st (chunkStep line) := by
  cases line with
  | nil => simp [isPlainContentLine] at h
  | cons ch t =>
    by_cases h1 : ch = '+'
    · subst h1
      have hb : ¬ (['+', '+', ' ', 'b', '/'] <+: t) := by
        intro hx
        have hx' : "++ b/".data.isPrefixOf t = true := List.isPrefixOf_iff_prefix.mpr hx
        simp [isPlainContentLine, List.isPrefixOf, hx'] at h
      have hn : ¬ (['+', '+', ' ', '/', 'd', 'e', 'v', '/', 'n', 'u', 'l', 'l'] <+: t) := by
        intro hx
        have hx' : "++ /dev/null".data.isPrefixOf t = true := List.isPrefixOf_iff_prefix.mpr hx
        simp [isPlainContentLine, List.isPrefixOf, hx'] at h
      simp [stepLine, hd, List.isPrefixOf, hb, hn]
    · by_cases h2 : ch = '-'
      · subst h2
        have hb : ¬ (['-', '-', ' ', 'a', '/'] <+: t) := by
          intro hx
          have hx' : "-- a/".data.isPrefixOf t = true := List.isPrefixOf_iff_prefix.mpr hx
          simp [isPlainContentLine, List.isPrefixOf, hx'] at h
        have hn : ¬ (['-', '-', ' ', '/', 'd', 'e', 'v', '/', 'n', 'u', 'l', 'l'] <+: t) := by
          intro hx
          have hx' : "-- /dev/null".data.isPrefixOf t = true := List.isPrefixOf_iff_prefix.mpr hx
          simp [isPlainContentLine, List.isPrefixOf, hx'] at h
        simp [stepLine, hd, List.isPrefixOf, hb, hn]
      · by_cases h3 : ch = ' '
        · subst h3
          simp [stepLine, hd, List.isPrefixOf]
        · exfalso
          have h1' : ¬ ('+' = ch) := fun hh => h1 hh.symm
          have h2' : ¬ ('-' = ch) := fun hh => h2 hh.symm
          have h3' : ¬ (' ' = ch) := fun hh => h3 hh.symm
          simp [isPlainContentLine, List.isPrefixOf, h1', h2', h3'] at h

/-- C3 amended: a malformed hunk header (a line starting with `@@ ` that
the hunk regex does not match) leaves the parser state entirely unchanged
— in particular no new hunk is opened and the previously open hunk, if
any, stays open; subsequent content lines are therefore appended to that
previously open hunk (see `c3_counterexample`), and they are ignored only
when no hunk has been opened at all (`currentChunk` is still null). -/
theorem c3_amended_malformed_header (st : ParseState) (line : List Char) (d : FileDiff) :
    ("@@ ".data.isPrefixOf line → parseHunkHeader line = none → stepLine st line = st) ∧
    (st.currentDiff = some d → st.cloc = none → isPlainContentLine line = true →
      stepLine st line = st) ∧
    (st.currentDiff = some d → isPlainContentLine line = true →
      stepLine st line = modifyOpenChunk st (chunkStep line)) := by
  refine ⟨?_, ?_, ?_⟩
  · intro hat hnone
    obtain ⟨t, rfl⟩ : ∃ t, line = "@@ ".data ++ t := by
      obtain ⟨t, ht⟩ := List.isPrefixOf_iff_prefix.mp hat
      exact ⟨t, ht.symm⟩
    have hnone' : parseHunkHeader ('@' :: '@' :: ' ' :: t) = none := hnone
    cases hcd : st.currentDiff <;>
      simp [stepLine, List.isPrefixOf, hnone', hcd]
  · intro hd hc h
    rw [stepLine_content st d line hd h]
    simp [modifyOpenChunk, hc]
  · exact fun hd h => stepLine_content st d line hd h

theorem c3_amended_malformed_header_witness :
    stepLine ⟨[], some ⟨"", "", false, false, []⟩, none⟩ "@@ bad".data =
      ⟨[], some ⟨"", "", false, false, []⟩, none⟩ ∧
    stepLine ⟨[], some ⟨"", "", false, false, []⟩, none⟩ "+q".data =
      ⟨[], some ⟨"", "", false, false, []⟩, none⟩ :=
  ⟨(c3_amended_malformed_header ⟨[], some ⟨"", "", false, false, []⟩, none⟩
      "@@ bad".data ⟨"", "", false, false, []⟩).1 (by decide) (by decide),
   (c3_amended_malformed_header ⟨[], some ⟨"", "", false, false, []⟩, none⟩
      "+q".data ⟨"", "", false, false, []⟩).2.1 rfl rfl (by decide)⟩

/-- C4 amended: while a hunk is open, a consumed line beginning with `+`
(resp. `-`, a space) that is not itself one of the file-metadata shapes
tested earlier in the branch chain (`+++ b/`, `+++ /dev/null`, `--- a/`,
`--- /dev/null`) is recorded as an Added (resp. Removed, Context)
DiffLine with the one-character marker stripped; a `+` or `-` line that
does match a metadata shape is captured by that earlier branch instead
(see `c4_counterexample`). -/
theorem c4_amended_line_classification (x : List Char) (hn : '\n' ∉ x)
    (hpb : ¬ (['+', '+', ' ', 'b', '/'] <+: x))
    (hpn : ¬ (['+', '+', ' ', '/', 'd', 'e', 'v', '/', 'n', 'u', 'l', 'l'] <+: x))
    (hma : ¬ (['-', '-', ' ', 'a', '/'] <+: x))
    (hmn : ¬ (['-', '-', ' ', '/', 'd', 'e', 'v', '/', 'n', 'u', 'l', 'l'] <+: x)) :
    parseDiff (String.mk ("diff --git a/f b/f".data ++ '\n' ::
        ("@@ -1 +1 @@".data ++ '\n' :: (('+' :: x) ++ ['\n'])))) =
      [{ oldFile := "", newFile := "", isDeleted := false, isNew := false,
         chunks := [{ oldStart := 1, oldLines := 1, newStart := 2, newLines := 1,
                      lines := [{ type := .added, content := String.mk x,
                                  oldLineNumber := none, newLineNumber := some 1 }] }] }] ∧
    parseDiff (String.mk ("diff --git a/f b/f".data ++ '\n' ::
        ("@@ -1 +1 @@".data ++ '\n' :: (('-' :: x) ++ ['\n'])))) =
      [{ oldFile := "", newFile := "", isDeleted := false, isNew := false,
         chunks := [{ oldStart := 2, oldLines := 1, newStart := 1, newLines := 1,
                      lines := [{ type := .removed, content := String.mk x,
                                  oldLineNumber := some 1, newLineNumber := none }] }] }] ∧
    parseDiff (String.mk ("diff --git a/f b/f".data ++ '\n' ::
        ("@@ -1 +1 @@".data ++ '\n' :: ((' ' :: x) ++ ['\n'])))) =
      [{ oldFile := "", newFile := "", isDeleted := false, isNew := false,
         chunks := [{ oldStart := 2, oldLines := 1, newStart := 2, newLines := 1,
                      lines := [{ type := .context, content := String.mk x,
                                  oldLineNumber := some 1, newLineNumber := some 1 }] }] }] := by
  have e1 : stepLine ⟨[], none, none⟩ "diff --git a/f b/f".data =
      ⟨[], some ⟨"", "", false, false, []⟩, none⟩ := by decide
  have e2 : stepLine ⟨[], some ⟨"", "", false, false, []⟩, none⟩ "@@ -1 +1 @@".data =
      ⟨[], some ⟨"", "", false, false,
        [{ oldStart := 1, oldLines := 1, newStart := 1, newLines := 1, lines := [] }]⟩,
        some .cur⟩ := by decide
  refine ⟨?_, ?_, ?_⟩
  · have hnx : '\n' ∉ '+' :: x := by simp [hn]
    have hb' : ['+', '+', ' ', 'b', '/'].isPrefixOf x = false := by
      rw [← Bool.not_eq_true, List.isPrefixOf_iff_prefix]
      exact hpb
    have hn' : ['+', '+', ' ', '/', 'd', 'e', 'v', '/', 'n', 'u', 'l', 'l'].isPrefixOf x = false := by
      rw [← Bool.not_eq_true, List.isPrefixOf_iff_prefix]
      exact hpn
    have hcontent : isPlainContentLine ('+' :: x) = true := by
      simp [isPlainContentLine, List.isPrefixOf, hb', hn']
    unfold parseDiff
    rw [show (String.mk ("diff --git a/f b/f".data ++ '\n' ::
        ("@@ -1 +1 @@".data ++ '\n' :: (('+' :: x) ++ ['\n'])))).data =
      "diff --git a/f b/f".data ++ '\n' ::
        ("@@ -1 +1 @@".data ++ '\n' :: (('+' :: x) ++ ['\n'])) from rfl]
    rw [splitLines_append _ _ (by decide), splitLines_append _ _ (by decide),
      splitLines_append _ _ hnx]
    simp only [List.foldl_cons, List.foldl_nil, e1, e2]
    rw [stepLine_content _ ⟨"", "", false, false,
      [{ oldStart := 1, oldLines := 1, newStart := 1, newLines := 1, lines := [] }]⟩
      ('+' :: x) rfl hcontent]
    simp [modifyOpenChunk, updateLast, chunkStep, List.isPrefixOf, stepLine, finalizeState,
      splitLines]
  · have hnx : '\n' ∉ '-' :: x := by simp [hn]
    have hb' : ['-', '-', ' ', 'a', '/'].isPrefixOf x = false := by
      rw [← Bool.not_eq_true, List.isPrefixOf_iff_prefix]
      exact hma
    have hn' : ['-', '-', ' ', '/', 'd', 'e', 'v', '/', 'n', 'u', 'l', 'l'].isPrefixOf x = false := by
      rw [← Bool.not_eq_true, List.isPrefixOf_iff_prefix]
      exact hmn
    have hcontent : isPlainContentLine ('-' :: x) = true := by
      simp [isPlainContentLine, List.isPrefixOf, hb', hn']
    unfold parseDiff
    rw [show (String.mk ("diff --git a/f b/f".data ++ '\n' ::
        ("@@ -1 +1 @@".data ++ '\n' :: (('-' :: x) ++ ['\n'])))).data =
      "diff --git a/f b/f".data ++ '\n' ::
        ("@@ -1 +1 @@".data ++ '\n' :: (('-' :: x) ++ ['\n'])) from rfl]
    rw [splitLines_append _ _ (by decide), splitLines_append _ _ (by decide),
      splitLines_append _ _ hnx]
    simp only [List.foldl_cons, List.foldl_nil, e1, e2]
    rw [stepLine_content _ ⟨"", "", false, false,
      [{ oldStart := 1, oldLines := 1, newStart := 1, newLines := 1, lines := [] }]⟩
      ('-' :: x) rfl hcontent]
    simp [modifyOpenChunk, updateLast, chunkStep, List.isPrefixOf, stepLine, finalizeState,
      splitLines]
  · have hnx : '\n' ∉ ' ' :: x := by simp [hn]
    have hcontent : isPlainContentLine (' ' :: x) = true := by
      simp [isPlainContentLine, List.isPrefixOf]
    unfold parseDiff
    rw [show (String.mk ("diff --git a/f b/f".data ++ '\n' ::
        ("@@ -1 +1 @@".data ++ '\n' :: ((' ' :: x) ++ ['\n'])))).data =
      "diff --git a/f b/f".data ++ '\n' ::
        ("@@ -1 +1 @@".data ++ '\n' :: ((' ' :: x) ++ ['\n'])) from rfl]
    rw [splitLines_append _ _ (by decide), splitLines_append _ _ (by decide),
      splitLines_append _ _ hnx]
    simp only [List.foldl_cons, List.foldl_nil, e1, e2]
    rw [stepLine_content _ ⟨"", "", false, false,
      [{ oldStart := 1, oldLines := 1, newStart := 1, newLines := 1, lines := [] }]⟩
      (' ' :: x) rfl hcontent]
    simp [modifyOpenChunk, updateLast, chunkStep, List.isPrefixOf, stepLine, finalizeState,
      splitLines]

theorem c4_amended_line_classification_witness :
    parseDiff (String.mk ("diff --git a/f b/f".data ++ '\n' ::
        ("@@ -1 +1 @@".data ++ '\n' :: (('+' :: 'q' :: []) ++ ['\n'])))) =
      [{ oldFile := "", newFile := "", isDeleted := false, isNew := false,
         chunks := [{ oldStart := 1, oldLines := 1, newStart := 2, newLines := 1,
                      lines := [{ type := .added, content := String.mk ['q'],
                                  oldLineNumber := none, newLineNumber := some 1 }] }] }] :=
  (c4_amended_line_classification ['q'] (by decide) (by decide) (by decide)
    (by decide) (by decide)).1

/-- C4 fails on the code: the line `+++ b/evil`, consumed while a hunk is
open, begins with `+` but is not recorded as an Added line — the earlier
`+++ b/` file-metadata branch wins and sets `newFile` instead, leaving the
hunk's line list empty. -/
theorem c4_counterexample :
    parseDiff "diff --git a/f b/f\n@@ -1 +1 @@\n+++ b/evil\n" =
      [{ oldFile := "", newFile := "evil", isDeleted := false, isNew := false,
         chunks := [{ oldStart := 1, oldLines := 1, newStart := 1, newLines := 1,
                      lines := [] }] }] := by
  decide

theorem takeWhile_append_all (p : Char → Bool) (a b : List Char)
    (ha : ∀ x ∈ a, p x = true) (hb : ∀ c, b.head? = some c → p c = false) :
    (a ++ b).takeWhile p = a := by
  induction a with
  | nil =>
    cases b with
    | nil => rfl
    | cons c t => simp [List.takeWhile, hb c rfl]
  | cons x a ih =>
    have hx : p x = true := ha x (by simp)
    rw [List.cons_append, List.takeWhile_cons, hx]
    rw [ih (fun y hy => ha y (by simp [hy]))]
    simp

theorem searchHunkCaps_cons (c : Char) (t : List Char)
    (caps : List Char × List Char × List Char × List Char)
    (h : matchHunkCapsAt (c :: t) = some caps) :
    searchHunkCaps (c :: t) = some caps := by
  rw [searchHunkCaps, h]

theorem matchHunkCapsAt_shapes (g1 g2 g3 g4 : List Char)
    (h1 : g1 ≠ []) (d1 : ∀ x ∈ g1, x.isDigit = true)
    (d2 : ∀ x ∈ g2, x.isDigit = true)
    (h3 : g3 ≠ []) (d3 : ∀ x ∈ g3, x.isDigit = true)
    (d4 : ∀ x ∈ g4, x.isDigit = true) :
    matchHunkCapsAt ("@@ -".data ++ (g1 ++ (',' :: (g2 ++ (" +".data ++
        (g3 ++ (',' :: (g4 ++ " @@".data)))))))) = some (g1, g2, g3, g4) ∧
    matchHunkCapsAt ("@@ -".data ++ (g1 ++ (" +".data ++ (g3 ++ " @@".data)))) =
      some (g1, [], g3, []) := by
  constructor
  · have tw1 : (g1 ++ (',' :: (g2 ++ (" +".data ++ (g3 ++ (',' :: (g4 ++
        " @@".data))))))).takeWhile Char.isDigit = g1 := by
      refine takeWhile_append_all Char.isDigit g1 _ d1 ?_
      intro c hc
      simp only [List.head?_cons, Option.some.injEq] at hc
      rw [← hc]
      decide
    have dr1 : (g1 ++ (',' :: (g2 ++ (" +".data ++ (g3 ++ (',' :: (g4 ++
        " @@".data))))))).drop g1.length =
        ',' :: (g2 ++ (" +".data ++ (g3 ++ (',' :: (g4 ++ " @@".data))))) :=
      List.drop_left g1 _
    have tw2 : (g2 ++ (" +".data ++ (g3 ++ (',' :: (g4 ++
        " @@".data))))).takeWhile Char.isDigit = g2 := by
      refine takeWhile_append_all Char.isDigit g2 _ d2 ?_
      intro c hc
      rw [show (" +".data ++ (g3 ++ (',' :: (g4 ++ " @@".data)))).head? =
        some ' ' from rfl] at hc
      simp only [Option.some.injEq] at hc
      rw [← hc]
      decide
    have dr2 : (g2 ++ (" +".data ++ (g3 ++ (',' :: (g4 ++
        " @@".data))))).drop g2.length =
        " +".data ++ (g3 ++ (',' :: (g4 ++ " @@".data))) :=
      List.drop_left g2 _
    have tw3 : (g3 ++ (',' :: (g4 ++ " @@".data))).takeWhile Char.isDigit = g3 := by
      refine takeWhile_append_all Char.isDigit g3 _ d3 ?_
      intro c hc
      simp only [List.head?_cons, Option.some.injEq] at hc
      rw [← hc]
      decide
    have dr3 : (g3 ++ (',' :: (g4 ++ " @@".data))).drop g3.length =
        ',' :: (g4 ++ " @@".data) :=
      List.drop_left g3 _
    have tw4 : (g4 ++ " @@".data).takeWhile Char.isDigit = g4 := by
      refine takeWhile_append_all Char.isDigit g4 _ d4 ?_
      intro c hc
      rw [show (" @@".data : List Char).head? = some ' ' from rfl] at hc
      simp only [Option.some.injEq] at hc
      rw [← hc]
      decide
    have dr4 : (g4 ++ " @@".data).drop g4.length = " @@".data :=
      List.drop_left g4 _
    have hpre : ("@@ -".data.isPrefixOf ("@@ -".data ++ (g1 ++ (',' :: (g2 ++
        (" +".data ++ (g3 ++ (',' :: (g4 ++ " @@".data))))))))) = true :=
      List.isPrefixOf_iff_prefix.mpr ⟨_, rfl⟩
    simp only [matchHunkCapsAt]
    rw [if_pos hpre]
    rw [show ("@@ -".data ++ (g1 ++ (',' :: (g2 ++ (" +".data ++ (g3 ++ (',' ::
      (g4 ++ " @@".data)))))))).drop 4 =
      g1 ++ (',' :: (g2 ++ (" +".data ++ (g3 ++ (',' :: (g4 ++ " @@".data))))))
      from rfl]
    rw [tw1]
    rw [if_neg h1]
    rw [dr1]
    rw [show (',' :: (g2 ++ (" +".data ++ (g3 ++ (',' :: (g4 ++
      " @@".data)))))).head? = some ',' from rfl]
    rw [if_pos rfl]
    rw [show (',' :: (g2 ++ (" +".data ++ (g3 ++ (',' :: (g4 ++
      " @@".data)))))).drop 1 =
      g2 ++ (" +".data ++ (g3 ++ (',' :: (g4 ++ " @@".data)))) from rfl]
    rw [tw2, dr2]
    rw [if_pos (show (" +".data.isPrefixOf (" +".data ++ (g3 ++ (',' :: (g4 ++
      " @@".data))))) = true from List.isPrefixOf_iff_prefix.mpr ⟨_, rfl⟩)]
    rw [show (" +".data ++ (g3 ++ (',' :: (g4 ++ " @@".data)))).drop 2 =
      g3 ++ (',' :: (g4 ++ " @@".data)) from rfl]
    rw [tw3]
    rw [if_neg h3]
    rw [dr3]
    rw [show (',' :: (g4 ++ " @@".data)).head? = some ',' from rfl]
    rw [if_pos rfl]
    rw [show (',' :: (g4 ++ " @@".data)).drop 1 = g4 ++ " @@".data from rfl]
    rw [tw4, dr4]
    rw [if_pos (show (" @@".data.isPrefixOf (" @@".data : List Char)) = true from
      List.isPrefixOf_iff_prefix.mpr ⟨[], by simp⟩)]
  · have tw1 : (g1 ++ (" +".data ++ (g3 ++ " @@".data))).takeWhile Char.isDigit = g1 := by
      refine takeWhile_append_all Char.isDigit g1 _ d1 ?_
      intro c hc
      rw [show (" +".data ++ (g3 ++ " @@".data)).head? = some ' ' from rfl] at hc
      simp only [Option.some.injEq] at hc
      rw [← hc]
      decide
    have dr1 : (g1 ++ (" +".data ++ (g3 ++ " @@".data))).drop g1.length =
        " +".data ++ (g3 ++ " @@".data) :=
      List.drop_left g1 _
    have tw3 : (g3 ++ " @@".data).takeWhile Char.isDigit = g3 := by
      refine takeWhile_append_all Char.isDigit g3 _ d3 ?_
      intro c hc
      rw [show (" @@".data : List Char).head? = some ' ' from rfl] at hc
      simp only [Option.some.injEq] at hc
      rw [← hc]
      decide
    have dr3 : (g3 ++ " @@".data).drop g3.length = " @@".data :=
      List.drop_left g3 _
    have hpre : ("@@ -".data.isPrefixOf ("@@ -".data ++ (g1 ++ (" +".data ++
        (g3 ++ " @@".data))))) = true :=
      List.isPrefixOf_iff_prefix.mpr ⟨_, rfl⟩
    simp only [matchHunkCapsAt]
    rw [if_pos hpre]
    rw [show ("@@ -".data ++ (g1 ++ (" +".data ++ (g3 ++ " @@".data)))).drop 4 =
      g1 ++ (" +".data ++ (g3 ++ " @@".data)) from rfl]
    rw [tw1]
    rw [if_neg h1]
    rw [dr1]
    rw [show (" +".data ++ (g3 ++ " @@".data)).head? = some ' ' from rfl]
    rw [if_neg (show ¬ ((some ' ' : Option Char) = some ',') from by decide)]
    rw [show (" +".data ++ (g3 ++ " @@".data)).takeWhile Char.isDigit = [] from rfl]
    rw [show (List.length ([] : List Char)) = 0 from rfl, List.drop_zero]
    rw [if_pos (show (" +".data.isPrefixOf (" +".data ++ (g3 ++ " @@".data))) = true
      from List.isPrefixOf_iff_prefix.mpr ⟨_, rfl⟩)]
    rw [show (" +".data ++ (g3 ++ " @@".data)).drop 2 = g3 ++ " @@".data from rfl]
    rw [tw3]
    rw [if_neg h3]
    rw [dr3]
    rw [show (" @@".data : List Char).head? = some ' ' from rfl]
    rw [if_neg (show ¬ ((some ' ' : Option Char) = some ',') from by decide)]
    rw [show (" @@".data : List Char).takeWhile Char.isDigit = [] from rfl]
    rw [show (List.length ([] : List Char)) = 0 from rfl, List.drop_zero]
    rw [if_pos (show (" @@".data.isPrefixOf (" @@".data : List Char)) = true from
      List.isPrefixOf_iff_prefix.mpr ⟨[], by simp⟩)]

/-- C8: for a hunk header matched by the parser, a present comma-count is
parsed as the written integer, and an omitted comma-count defaults the
corresponding `oldLines`/`newLines` field to 1 (the header text is
quantified over arbitrary digit-string captures). -/
theorem c8_hunk_header_defaults (g1 g2 g3 g4 : List Char)
    (h1 : g1 ≠ []) (d1 : ∀ x ∈ g1, x.isDigit = true)
    (h2 : g2 ≠ []) (d2 : ∀ x ∈ g2, x.isDigit = true)
    (h3 : g3 ≠ []) (d3 : ∀ x ∈ g3, x.isDigit = true)
    (h4 : g4 ≠ []) (d4 : ∀ x ∈ g4, x.isDigit = true) :
    parseHunkHeader ("@@ -".data ++ (g1 ++ (',' :: (g2 ++ (" +".data ++
        (g3 ++ (',' :: (g4 ++ " @@".data)))))))) =
      some { oldStart := parseNatDigits g1, oldLines := parseNatDigits g2,
             newStart := parseNatDigits g3, newLines := parseNatDigits g4,
             lines := [] } ∧
    parseHunkHeader ("@@ -".data ++ (g1 ++ (" +".data ++ (g3 ++ " @@".data)))) =
      some { oldStart := parseNatDigits g1, oldLines := 1,
             newStart := parseNatDigits g3, newLines := 1, lines := [] } := by
  obtain ⟨m1, m2⟩ := matchHunkCapsAt_shapes g1 g2 g3 g4 h1 d1 d2 h3 d3 d4
  constructor
  · have hs : searchHunkCaps ("@@ -".data ++ (g1 ++ (',' :: (g2 ++ (" +".data ++
        (g3 ++ (',' :: (g4 ++ " @@".data)))))))) = some (g1, g2, g3, g4) :=
      searchHunkCaps_cons '@' _ _ m1
    unfold parseHunkHeader
    rw [hs]
    simp [h2, h4]
  · have hs : searchHunkCaps ("@@ -".data ++ (g1 ++ (" +".data ++
        (g3 ++ " @@".data)))) = some (g1, [], g3, []) :=
      searchHunkCaps_cons '@' _ _ m2
    unfold parseHunkHeader
    rw [hs]
    simp

theorem c8_hunk_header_defaults_witness :
    parseHunkHeader ("@@ -".data ++ (['3'] ++ (',' :: (['2'] ++ (" +".data ++
        (['5'] ++ (',' :: (['7'] ++ " @@".data)))))))) =
      some { oldStart := 3, oldLines := 2, newStart := 5, newLines := 7,
             lines := [] } ∧
    parseHunkHeader ("@@ -".data ++ (['3'] ++ (" +".data ++ (['5'] ++ " @@".data)))) =
      some { oldStart := 3, oldLines := 1, newStart := 5, newLines := 1,
             lines := [] } := by
  have h := c8_hunk_header_defaults ['3'] ['2'] ['5'] ['7'] (by decide) (by decide)
    (by decide) (by decide) (by decide) (by decide) (by decide) (by decide)
  exact ⟨by rw [h.1]; decide, by rw [h.2]; decide⟩

theorem matchHunkCapsAt_digits (l g1 g2 g3 g4 : List Char)
    (h : matchHunkCapsAt l = some (g1, g2, g3, g4)) :
    (g1 ≠ [] ∧ ∀ x ∈ g1, x.isDigit = true) ∧ (∀ x ∈ g2, x.isDigit = true) ∧
    (g3 ≠ [] ∧ ∀ x ∈ g3, x.isDigit = true) ∧ (∀ x ∈ g4, x.isDigit = true) := by
  simp only [matchHunkCapsAt] at h
  split_ifs at h
  all_goals
    (simp only [Option.some.injEq, Prod.mk.injEq] at h ;
     obtain ⟨e1, e2, e3, e4⟩ := h ;
     exact ⟨⟨by rw [← e1] ; assumption,
             fun x hx => List.mem_takeWhile_imp (by rw [← e1] at hx ; exact hx)⟩,
            fun x hx => List.mem_takeWhile_imp (by rw [← e2] at hx ; exact hx),
            ⟨by rw [← e3] ; assumption,
             fun x hx => List.mem_takeWhile_imp (by rw [← e3] at hx ; exact hx)⟩,
            fun x hx => List.mem_takeWhile_imp (by rw [← e4] at hx ; exact hx)⟩)

theorem searchHunkCaps_digits (l g1 g2 g3 g4 : List Char)
    (h : searchHunkCaps l = some (g1, g2, g3, g4)) :
    (g1 ≠ [] ∧ ∀ x ∈ g1, x.isDigit = true) ∧ (∀ x ∈ g2, x.isDigit = true) ∧
    (g3 ≠ [] ∧ ∀ x ∈ g3, x.isDigit = true) ∧ (∀ x ∈ g4, x.isDigit = true) := by
  induction l with
  | nil => simp [searchHunkCaps] at h
  | cons c t ih =>
    rw [searchHunkCaps] at h
    cases hm : matchHunkCapsAt (c :: t) with
    | some caps =>
      rw [hm] at h
      injection h with h
      subst h
      exact matchHunkCapsAt_digits (c :: t) g1 g2 g3 g4 hm
    | none =>
      rw [hm] at h
      exact ih h

theorem parseHunkHeaderChecked_ok (line : List Char) :
    parseHunkHeaderChecked line = .ok (parseHunkHeader line) := by
  cases hm : searchHunkCaps line with
  | none => simp [parseHunkHeaderChecked, parseHunkHeader, hm]
  | some caps =>
    obtain ⟨g1, g2, g3, g4⟩ := caps
    obtain ⟨⟨h1, d1⟩, d2, ⟨h3, d3⟩, d4⟩ := searchHunkCaps_digits line g1 g2 g3 g4 hm
    have e1 : (if ∀ x ∈ g1, x.isDigit = true then (Except.ok (parseNatDigits g1) :
        Except String Nat) else Except.error "NaN") = Except.ok (parseNatDigits g1) :=
      if_pos d1
    have e2 : (if ∀ x ∈ g2, x.isDigit = true then (Except.ok (parseNatDigits g2) :
        Except String Nat) else Except.error "NaN") = Except.ok (parseNatDigits g2) :=
      if_pos d2
    have e3 : (if ∀ x ∈ g3, x.isDigit = true then (Except.ok (parseNatDigits g3) :
        Except String Nat) else Except.error "NaN") = Except.ok (parseNatDigits g3) :=
      if_pos d3
    have e4 : (if ∀ x ∈ g4, x.isDigit = true then (Except.ok (parseNatDigits g4) :
        Except String Nat) else Except.error "NaN") = Except.ok (parseNatDigits g4) :=
      if_pos d4
    by_cases h2 : g2 = [] <;> by_cases h4 : g4 = [] <;>
      simp [parseHunkHeaderChecked, parseHunkHeader, hm, h2, h4, parseIntChecked,
        h1, d1, h3, d3, d2, d4, e1, e2, e3, e4, Bind.bind, Except.bind, Functor.map,
        Except.map, pure, Except.pure]

theorem stepLineChecked_ok (st : ParseState) (line : List Char) :
    stepLineChecked st line = .ok (stepLine st line) := by
  have hph := parseHunkHeaderChecked_ok line
  cases hcd : st.currentDiff with
  | none =>
    simp only [stepLineChecked, stepLine, hcd]
    split_ifs <;> rfl
  | some d =>
    cases hp : parseHunkHeader line with
    | none =>
      rw [hp] at hph
      simp only [stepLineChecked, stepLine, hcd, hph, hp]
      split_ifs <;> rfl
    | some ch =>
      rw [hp] at hph
      simp only [stepLineChecked, stepLine, hcd, hph, hp]
      split_ifs <;> rfl

theorem foldlM_stepLineChecked_ok (lines : List (List Char)) (st : ParseState) :
    List.foldlM stepLineChecked st lines = .ok (List.foldl stepLine st lines) := by
  induction lines generalizing st with
  | nil => rfl
  | cons l t ih =>
    simp only [List.foldlM_cons, stepLineChecked_ok, ih, List.foldl_cons]
    rfl

/-- C6: totality — the checked variant of `parseDiff`, which returns an
error value exactly where the source's `parseInt` would produce `NaN`,
succeeds on every input string and returns exactly `parseDiff`'s result;
`splitDiffByFiles` contains no fallible primitive at all, so both
functions are total Lean functions on all strings. -/
theorem c6_parse_total (s : String) :
    parseDiffChecked s = Except.ok (parseDiff s) := by
  unfold parseDiffChecked parseDiff
  rw [foldlM_stepLineChecked_ok]
  rfl

theorem findSub_newline_none (s : List Char) (h : '\n' ∉ s) :
    findSub ['\n'] s = none := by
  induction s with
  | nil => rfl
  | cons c t ih =>
    simp only [List.mem_cons, not_or] at h
    have hc : ¬ (['\n'].isPrefixOf (c :: t) = true) := by
      intro hh
      simp only [List.isPrefixOf, List.isPrefixOf_nil_left, Bool.and_true,
        beq_iff_eq] at hh
      exact h.1 hh
    simp only [findSub, if_neg hc, ih h.2, Option.map_none']

theorem findSub_isPrefixOf (pat s : List Char) (j : Nat)
    (h : findSub pat s = some j) : pat.isPrefixOf (s.drop j) = true := by
  induction s generalizing j with
  | nil =>
    simp only [findSub] at h
    split_ifs at h with hp
    · injection h with h
      subst h
      exact hp
  | cons c t ih =>
    simp only [findSub] at h
    split_ifs at h with hp
    · injection h with h
      subst h
      exact hp
    · cases hj : findSub pat t with
      | none =>
        simp only [hj, Option.map_none'] at h
        exact Option.noConfusion h
      | some j0 =>
        simp only [hj, Option.map_some'] at h
        injection h with h
        subst h
        rw [List.drop_succ_cons]
        exact ih j0 hj

theorem matchFileHeaderAt_nl_none (s : List Char) (h : '\n' ∉ s) :
    matchFileHeaderAt s = none := by
  simp only [matchFileHeaderAt]
  cases hj : findSub " b/".data (s.drop 13) with
  | none => simp [hj]
  | some j =>
    simp only [hj]
    have hnl : '\n' ∉ (s.drop 13).drop (j + 3) :=
      fun hm => h (List.mem_of_mem_drop (List.mem_of_mem_drop hm))
    rw [findSub_newline_none _ hnl]
    simp

theorem matchFileHeaderAt_ends_newline (s : List Char) (g : List Char) (len : Nat)
    (h : matchFileHeaderAt s = some (g, len)) :
    s[len - 1]? = some '\n' ∧ 1 ≤ len := by
  simp only [matchFileHeaderAt] at h
  split_ifs at h with hp
  cases hj : findSub " b/".data (s.drop 13) with
  | none =>
    simp only [hj] at h
    exact Option.noConfusion h
  | some j =>
    simp only [hj] at h
    split_ifs at h with hg
    cases hm : findSub ['\n'] ((s.drop 13).drop (j + 3)) with
    | none =>
      simp only [hm] at h
      exact Option.noConfusion h
    | some m =>
      simp only [hm, Option.some.injEq, Prod.mk.injEq] at h
      obtain ⟨-, e2⟩ := h
      have hpre := findSub_isPrefixOf ['\n'] _ m hm
      rw [List.drop_drop, List.drop_drop] at hpre
      simp only [← Nat.add_assoc] at hpre
      have hd : (s.drop (13 + j + 3 + m)).head? = some '\n' := by
        cases hdc : s.drop (13 + j + 3 + m) with
        | nil => rw [hdc] at hpre; exact absurd hpre (by decide)
        | cons c t =>
          rw [hdc] at hpre
          simp only [List.isPrefixOf, List.isPrefixOf_nil_left, Bool.and_true,
            beq_iff_eq] at hpre
          rw [List.head?_cons, ← hpre]
      rw [List.head?_drop] at hd
      constructor
      · rw [← e2]
        have e3 : 13 + j + 3 + m + 1 - 1 = 13 + j + 3 + m := by omega
        rw [e3]
        exact hd
      · omega

theorem scanAux_inv (fuel : Nat) (t : List Char) (i idx len : Nat) (g : List Char)
    (h : (idx, g, len) ∈ scanAux fuel t i) :
    i ≤ idx ∧ matchFileHeaderAt (t.drop (idx - i)) = some (g, len) := by
  induction fuel generalizing t i with
  | zero => simp [scanAux] at h
  | succ fuel ih =>
    cases t with
    | nil => simp [scanAux] at h
    | cons c tt =>
      rw [scanAux] at h
      cases hm : matchFileHeaderAt (c :: tt) with
      | some p =>
        obtain ⟨g0, len0⟩ := p
        simp only [hm] at h
        rcases List.mem_cons.mp h with h | h
        · injection h with h1 h2
          injection h2 with h2 h3
          subst h1
          subst h2
          subst h3
          simpa using hm
        · obtain ⟨hle, hmt⟩ := ih _ _ h
          refine ⟨by omega, ?_⟩
          rw [List.drop_drop] at hmt
          have e : len0 + (idx - (i + len0)) = idx - i := by omega
          rw [e] at hmt
          exact hmt
      | none =>
        simp only [hm] at h
        obtain ⟨hle, hmt⟩ := ih _ _ h
        refine ⟨by omega, ?_⟩
        have e : idx - i = (idx - (i + 1)) + 1 := by omega
        rw [e, List.drop_succ_cons]
        exact hmt

theorem scanAux_nl_empty (fuel : Nat) (t : List Char) (i : Nat) (h : '\n' ∉ t) :
    scanAux fuel t i = [] := by
  induction fuel generalizing t i with
  | zero => rfl
  | succ fuel ih =>
    cases t with
    | nil => rfl
    | cons c tt =>
      rw [scanAux, matchFileHeaderAt_nl_none _ h]
      exact ih tt (i + 1) (fun hm => h (List.mem_cons_of_mem c hm))

/-- C10: the file-header regex only recognizes a header terminated by a
newline — every recorded match ends with the character `'\n'` — and an
input containing no newline at all (in particular a single unterminated
`diff --git a/<p> b/<p>` header line) therefore produces no match, so
`splitDiffByFiles` returns the empty mapping on it. -/
theorem c10_header_requires_newline :
    (∀ (s g : List Char) (idx len : Nat), (idx, g, len) ∈ scanHeaders s →
      s[idx + len - 1]? = some '\n') ∧
    (∀ s : String, '\n' ∉ s.data → splitDiffByFiles s = []) := by
  constructor
  · intro s g idx len h
    obtain ⟨-, hm⟩ := scanAux_inv s.length s 0 idx len g h
    rw [Nat.sub_zero] at hm
    obtain ⟨hend, hlen⟩ := matchFileHeaderAt_ends_newline _ _ _ hm
    rw [List.getElem?_drop] at hend
    have e : idx + (len - 1) = idx + len - 1 := by omega
    rw [e] at hend
    exact hend
  · intro s h
    unfold splitDiffByFiles scanHeaders
    rw [scanAux_nl_empty _ _ _ h]
    rfl

theorem c10_header_requires_newline_witness :
    ((0, ['f'], 19) ∈ scanHeaders "diff --git a/f b/f\n".data ∧
      ("diff --git a/f b/f\n".data)[0 + 19 - 1]? = some '\n') ∧
    ('\n' ∉ "diff --git a/f b/f".data ∧ splitDiffByFiles "diff --git a/f b/f" = []) :=
  ⟨⟨by decide, c10_header_requires_newline.1 "diff --git a/f b/f\n".data ['f'] 0 19
      (by decide)⟩,
   ⟨by decide, c10_header_requires_newline.2 "diff --git a/f b/f" (by decide)⟩⟩

theorem recSet_append (acc : List (String × String)) (k v : String)
    (h : ∀ p ∈ acc, ¬ (p.1 = k)) : recSet acc k v = acc ++ [(k, v)] := by
  have h' : (acc.any (fun p => p.1 = k)) = false := by
    rw [List.any_eq_false]
    intro p hp
    simpa using h p hp
  simp [recSet, h']

theorem segPairs_length (s : List Char) (hs : List (Nat × List Char × Nat)) :
    (segPairs s hs).length = hs.length := by
  induction hs with
  | nil => rfl
  | cons e rest ih => simp only [segPairs, List.length_cons, ih]

theorem splitLoop_segPairs (s : List Char) (hs : List (Nat × List Char × Nat))
    (acc : List (String × String))
    (hfresh : ∀ p ∈ acc, ∀ e ∈ hs, ¬ (p.1 = String.mk e.2.1))
    (hnodup : (hs.map (fun e => String.mk e.2.1)).Nodup) :
    splitLoop s hs acc = acc ++ segPairs s hs := by
  induction hs generalizing acc with
  | nil => simp [splitLoop, segPairs]
  | cons e rest ih =>
    obtain ⟨idx, name, len⟩ := e
    rw [List.map_cons] at hnodup
    obtain ⟨hnotin, hnodup'⟩ := List.nodup_cons.mp hnodup
    have hnext : ∀ (v : String), ∀ p ∈ acc ++ [(String.mk name, v)],
        ∀ e ∈ rest, ¬ (p.1 = String.mk e.2.1) := by
      intro v p hp e' he'
      rcases List.mem_append.mp hp with hp | hp
      · exact hfresh p hp e' (List.mem_cons_of_mem _ he')
      · simp only [List.mem_singleton] at hp
        subst hp
        intro hcon
        refine hnotin ?_
        rw [show String.mk name = (String.mk name, v).1 from rfl, hcon]
        exact List.mem_map_of_mem _ he'
    simp only [splitLoop, segPairs]
    rw [recSet_append acc (String.mk name) _
      (fun p hp => hfresh p hp (idx, name, len) (by simp))]
    rw [ih _ (hnext _) hnodup']
    simp

theorem scanAux_chain (fuel : Nat) (t : List Char) (i : Nat) :
    List.Chain' (fun a b : Nat × List Char × Nat => a.1 ≤ b.1) (scanAux fuel t i) := by
  induction fuel generalizing t i with
  | zero => simp [scanAux]
  | succ fuel ih =>
    cases t with
    | nil => simp [scanAux]
    | cons c tt =>
      rw [scanAux]
      cases hm : matchFileHeaderAt (c :: tt) with
      | none => exact ih tt (i + 1)
      | some p =>
        obtain ⟨g0, len0⟩ := p
        refine List.chain'_cons'.mpr ⟨?_, ih _ _⟩
        intro y hy
        have hmem := List.mem_of_mem_head? hy
        have hle := (scanAux_inv fuel _ (i + len0) y.1 y.2.2 y.2.1 (by
          simpa using hmem)).1
        show i ≤ y.1
        omega

theorem segPairs_join (s : List Char) (hs : List (Nat × List Char × Nat))
    (hchain : List.Chain' (fun a b : Nat × List Char × Nat => a.1 ≤ b.1) hs) :
    ((segPairs s hs).map Prod.snd).foldr (fun a b => a ++ b) "" =
      String.mk (s.drop (headIdx s hs)) := by
  induction hs with
  | nil =>
    show "" = String.mk (s.drop s.length)
    rw [List.drop_length]
  | cons e rest ih =>
    obtain ⟨i1, g, len⟩ := e
    cases rest with
    | nil =>
      simp only [segPairs, List.map_cons, List.map_nil, List.foldr_cons, List.foldr_nil]
      have e1 : (s.drop i1).take (s.length - i1) = s.drop i1 :=
        List.take_of_length_le (by simp)
      rw [e1]
      calc String.mk (s.drop i1) ++ "" = String.mk (s.drop i1 ++ []) := rfl
        _ = String.mk (s.drop i1) := by rw [List.append_nil]
    | cons e2 rest2 =>
      obtain ⟨i2, g2, len2⟩ := e2
      obtain ⟨h12, hchain'⟩ := List.chain'_cons.mp hchain
      have ihr := ih hchain'
      simp only [segPairs, List.map_cons, List.foldr_cons] at ihr ⊢
      rw [ihr]
      show String.mk ((s.drop i1).take (i2 - i1)) ++ String.mk (s.drop i2) =
        String.mk (s.drop i1)
      have htel : (s.drop i1).take (i2 - i1) ++ s.drop i2 = s.drop i1 := by
        conv_rhs => rw [← List.take_append_drop (i2 - i1) (s.drop i1)]
        rw [List.drop_drop]
        have e3 : i1 + (i2 - i1) = i2 := by omega
        rw [e3]
      calc String.mk ((s.drop i1).take (i2 - i1)) ++ String.mk (s.drop i2)
          = String.mk ((s.drop i1).take (i2 - i1) ++ s.drop i2) := rfl
        _ = String.mk (s.drop i1) := by rw [htel]

/-- C1 amended: for any input whose captured `a/` paths are pairwise
distinct, `splitDiffByFiles` returns exactly one entry per regex match of
the file-header pattern, and concatenating the returned substrings in
order reproduces the input from the first matched header onward (the
whole input when the input starts with a header); the text before the
first header is dropped, and when two headers capture the same `a/` path
the later entry overwrites the earlier one (see `c1_counterexample`). -/
theorem c1_amended_segmentation (s : String)
    (hnodup : ((scanHeaders s.data).map (fun e => String.mk e.2.1)).Nodup) :
    (splitDiffByFiles s).length = (scanHeaders s.data).length ∧
    ((splitDiffByFiles s).map Prod.snd).foldr (fun a b => a ++ b) "" =
      String.mk (s.data.drop (firstHeaderIndex s.data)) := by
  have hsp := splitLoop_segPairs s.data (scanHeaders s.data) [] (by simp) hnodup
  unfold splitDiffByFiles
  rw [hsp]
  simp only [List.nil_append]
  constructor
  · exact segPairs_length s.data (scanHeaders s.data)
  · have hchain : List.Chain' (fun a b : Nat × List Char × Nat => a.1 ≤ b.1)
        (scanHeaders s.data) := scanAux_chain s.data.length s.data 0
    rw [segPairs_join s.data (scanHeaders s.data) hchain]
    rfl

theorem c1_amended_segmentation_witness :
    (((scanHeaders "diff --git a/f b/f\n+a\ndiff --git a/g b/g\n-b\n".data).map
        (fun e => String.mk e.2.1)).Nodup ∧
      (splitDiffByFiles "diff --git a/f b/f\n+a\ndiff --git a/g b/g\n-b\n").length =
        (scanHeaders "diff --git a/f b/f\n+a\ndiff --git a/g b/g\n-b\n".data).length) ∧
    ((splitDiffByFiles "diff --git a/f b/f\n+a\ndiff --git a/g b/g\n-b\n").map
        Prod.snd).foldr (fun a b => a ++ b) "" =
      String.mk ("diff --git a/f b/f\n+a\ndiff --git a/g b/g\n-b\n".data.drop
        (firstHeaderIndex "diff --git a/f b/f\n+a\ndiff --git a/g b/g\n-b\n".data)) :=
  ⟨⟨by decide,
    (c1_amended_segmentation "diff --git a/f b/f\n+a\ndiff --git a/g b/g\n-b\n"
      (by decide)).1⟩,
   (c1_amended_segmentation "diff --git a/f b/f\n+a\ndiff --git a/g b/g\n-b\n"
      (by decide)).2⟩

end DiffUtils
